import Mathlib

/- Shallow embedding of the vartools core (risk.py, optimization.py,
   backtesting.py, _validation.py).

   Modelling conventions:
   * a pandas DataFrame indexed by date is a `List (ℕ × List ℚ)` of
     (date key, row) pairs; float arithmetic is idealized as exact ℚ;
   * the numpy NaN that arises as the mean of an empty slice is modelled
     by `Option ℚ` (`none` = NaN);
   * a raised ValueError from `_validate_confidence` (the InvalidParameter
     condition of the spec) is modelled by `Except VErr`;
   * `scipy.optimize.minimize` is an abstract `Solver` consuming the exact
     problem data (objective, start point, bounds, equality constraint,
     tolerance) the source passes to it and returning a final iterate. -/

/-- Python round(): round half to even (used by backtesting.py). -/
def pyRound (x : ℚ) : ℤ :=
  let f := ⌊x⌋
  let r := x - f
  if r < 1/2 then f
  else if 1/2 < r then f + 1
  else if Even f then f else f + 1

/-- Model of DataFrame.sort_index(): stable sort of the rows by date key. -/
def sortIndex (data : List (ℕ × List ℚ)) : List (ℕ × List ℚ) :=
  List.insertionSort (fun a b => a.1 ≤ b.1) data

/-- Model of DataFrame.pct_change().dropna() on a table of rows: entry t of the
result is (row (t+1) - row t) / row t elementwise, and the first (NaN) row of
pct_change is dropped. -/
def pctChange (rows : List (List ℚ)) : List (List ℚ) :=
  match rows with
  | [] => []
  | _ :: tl => List.zipWith (fun prev cur => List.zipWith (fun p c => (c - p) / p) prev cur) rows tl

/-- Model of Series.pct_change().dropna() on a single column. -/
def pctChange1 (xs : List ℚ) : List ℚ :=
  match xs with
  | [] => []
  | _ :: tl => List.zipWith (fun p c => (c - p) / p) xs tl

/-- Dot product of a weight list with a row (np.dot, or elementwise product
followed by sum). -/
def dot (w row : List ℚ) : ℚ := (List.zipWith (fun a b => a * b) w row).sum

/-- Mean of a list; none models the numpy NaN produced by the mean of an
empty slice. -/
def listMean (l : List ℚ) : Option ℚ :=
  if l.isEmpty then none else some (l.sum / l.length)

/-- Total mean (sum / length).  On the empty list this yields 0 where numpy
would produce NaN; it is used only where no claim exercises the empty case. -/
def meanD (l : List ℚ) : ℚ := l.sum / l.length

/-- Column i of a table of rows. -/
def colD (rows : List (List ℚ)) (i : ℕ) : List ℚ := rows.map (fun r => r.getD i 0)

/-- Boolean-mask row selection (pandas series[mask]). -/
def maskSelect (mask : List Bool) (xs : List ℚ) : List ℚ :=
  (List.zip mask xs).filterMap (fun p => if p.1 then some p.2 else none)

/-- Model of np.percentile with the default linear (type-7) interpolation:
for a sorted sample s of length T and q in [0,100], h = (T-1)q/100 and the
result interpolates between s[floor h] and s[floor h + 1]. -/
def percentile (xs : List ℚ) (q : ℚ) : ℚ :=
  let s := List.insertionSort (fun a b => a ≤ b) xs
  let h : ℚ := ((s.length : ℚ) - 1) * q / 100
  let i : ℕ := (⌊h⌋).toNat
  let g : ℚ := h - (i : ℚ)
  let a := s.getD i 0
  let b := s.getD (i+1) a
  a + g * (b - a)

/-- Error raised by _validate_confidence (a ValueError; the InvalidParameter
condition of the spec). -/
inductive VErr where
  | invalidParameter (name : String)
deriving DecidableEq

/-- Model of _validate_confidence: the confidence level must satisfy
0 < value < 100 (both strict). -/
abbrev confOK (v : ℚ) : Prop := 0 < v ∧ v < 100

/-- Portfolio return series of var_weights / cvar_weights: sort by date,
compute returns of the price table, then np.dot(weights, rt.T). -/
def portRets (data : List (ℕ × List ℚ)) (weights : List ℚ) : List ℚ :=
  (pctChange ((sortIndex data).map Prod.snd)).map (dot weights)

/-- Model of risk.var_weights. -/
def var_weights (data : List (ℕ × List ℚ)) (weights : List ℚ) (conf : ℚ) :
    Except VErr ℚ :=
  if confOK conf then
    .ok |percentile (portRets data weights) (100 - conf)|
  else .error (.invalidParameter "conf")

/-- Model of risk.cvar_weights; the result is none (NaN) when no portfolio
return lies strictly below the percentile threshold. -/
def cvar_weights (data : List (ℕ × List ℚ)) (weights : List ℚ) (conf : ℚ) :
    Except VErr (Option ℚ) :=
  if confOK conf then
    let pr := portRets data weights
    let var := percentile pr (100 - conf)
    .ok ((listMean (pr.filter (fun x => decide (x < var)))).map (fun x => |x|))
  else .error (.invalidParameter "conf")

/-- Rows of the var_stocks / var_forex result table (VaR and cVaR, as
percentage and cash figures); the cvar fields are none when the tail is
empty (NaN). -/
structure VarTable where
  varPct : ℚ
  cvarPct : Option ℚ
  varCash : ℚ
  cvarCash : Option ℚ
deriving DecidableEq

/-- Model of risk.var_stocks; sel gives the positions of the requested ticker
columns (the stocks argument) inside each price row. -/
def var_stocks (data : List (ℕ × List ℚ)) (n_stocks : List ℚ) (conf : ℚ)
    (long : Bool) (sel : List ℕ) : Except VErr VarTable :=
  if confOK conf then
    let rows := ((sortIndex data).map Prod.snd).map (fun r => sel.map (fun j => r.getD j 0))
    let rt := pctChange rows
    let stock_value := List.zipWith (fun a b => a * b) n_stocks (rows.getLastD [])
    let portfolio_value := stock_value.sum
    let w := stock_value.map (fun v => v / portfolio_value)
    let pr := rt.map (dot w)
    let var_pct := if long then percentile pr (100 - conf) else percentile pr conf
    let cvar_pct := if long then (listMean (pr.filter (fun x => decide (x < var_pct)))).map (fun x => |x|)
                    else listMean (pr.filter (fun x => decide (var_pct < x)))
    .ok { varPct := |var_pct|, cvarPct := cvar_pct,
          varCash := |portfolio_value * var_pct|,
          cvarCash := cvar_pct.map (fun c => portfolio_value * c) }
  else .error (.invalidParameter "conf")

/-- Model of risk.var_forex; sel selects the currency columns. -/
def var_forex (data : List (ℕ × List ℚ)) (positions : List ℚ) (conf : ℚ)
    (long : Bool) (sel : List ℕ) : Except VErr VarTable :=
  if confOK conf then
    let rows := ((sortIndex data).map Prod.snd).map (fun r => sel.map (fun j => r.getD j 0))
    let totals := rows.map (fun r => (List.zipWith (fun a b => a * b) r positions).sum)
    let pr := pctChange1 totals
    let var_pct := if long then percentile pr (100 - conf) else percentile pr conf
    let cvar_pct := if long then (listMean (pr.filter (fun x => decide (x < var_pct)))).map (fun x => |x|)
                    else listMean (pr.filter (fun x => decide (var_pct < x)))
    .ok { varPct := |var_pct|, cvarPct := cvar_pct,
          varCash := |totals.getLastD 0 * var_pct|,
          cvarCash := cvar_pct.map (fun c => totals.getLastD 0 * c) }
  else .error (.invalidParameter "conf")

/-- Tail-day mask of cvar_contributions: the days on which the weighted
portfolio return falls strictly below the (100-alpha) percentile of the
portfolio return series.  It is computed once, at the portfolio level. -/
def portfolioTailMask (weights : List ℚ) (returns : List (List ℚ)) (alpha : ℚ) :
    List Bool :=
  let pr := returns.map (dot weights)
  let var := percentile pr (100 - alpha)
  pr.map (fun r => decide (r < var))

/-- Model of risk.cvar_contributions; entry i is
-mean(asset i returns on the portfolio tail days) * weights[i], with none
modelling NaN when the tail is empty. -/
def cvar_contributions (weights : List ℚ) (returns : List (List ℚ)) (alpha : ℚ) :
    Except VErr (List (Option ℚ)) :=
  if confOK alpha then
    let bad_days := portfolioTailMask weights returns alpha
    .ok ((List.range weights.length).map (fun i =>
      (listMean (maskSelect bad_days (colD returns i))).map (fun m => -m * weights.getD i 0)))
  else .error (.invalidParameter "alpha")

/-- Result rows of var_apl: VaR/CVaR plus the liquidity-adjusted (average and
stressed) variants, as percentages and cash; Option models the NaN of an
empty tail mean. -/
structure VarAplTable where
  varPct : ℚ
  varAplProm : ℚ
  varAplEstr : ℚ
  cvarPct : Option ℚ
  cvarAplProm : Option ℚ
  cvarAplEstr : Option ℚ
  varCash : ℚ
  varAplPromCash : ℚ
  varAplEstrCash : ℚ
  cvarCash : Option ℚ
  cvarAplPromCash : Option ℚ
  cvarAplEstrCash : Option ℚ

/-- Model of risk.var_apl.  The Bid and Ask column families (selected in the
source by column-name substring) are passed as two aligned row tables; mid,
spread, returns, weights and the liquidity adjustments follow the source. -/
def var_apl (bids asks : List (List ℚ)) (posiciones : List ℚ) (conf : ℚ)
    (long : Bool) : Except VErr VarAplTable :=
  if confOK conf then
    let mids := List.zipWith (List.zipWith (fun b a => (b + a) / 2)) bids asks
    let spreads := List.zipWith (List.zipWith (fun b a => (a - b) / ((b + a) / 2))) bids asks
    let rets := pctChange mids
    let value := List.zipWith (fun p m => p * m) posiciones (mids.getLastD [])
    let pv := value.sum
    let w := value.map (fun v => v / pv)
    let port_ret := rets.map (dot w)
    let ncols := (bids.headD []).length
    let var_pct := if long then percentile port_ret (100 - conf) else percentile port_ret conf
    let var_cash := pv * var_pct
    let cvar_pct := if long then listMean (port_ret.filter (fun x => decide (x < var_pct)))
                    else listMean (port_ret.filter (fun x => decide (var_pct < x)))
    let cvar_cash := cvar_pct.map (fun c => pv * c)
    let cl_prom := (List.range ncols).map (fun j => meanD (colD spreads j))
    let cl_estr := (List.range ncols).map (fun j => percentile (colD spreads j) 99)
    let adj := fun (x cost : ℚ) => if long then |x - cost| else |x + cost|
    .ok { varPct := |var_pct|,
          varAplProm := adj var_pct (dot w cl_prom),
          varAplEstr := adj var_pct (dot w cl_estr),
          cvarPct := cvar_pct.map (fun x => |x|),
          cvarAplProm := cvar_pct.map (fun c => adj c (dot w cl_prom)),
          cvarAplEstr := cvar_pct.map (fun c => adj c (dot w cl_estr)),
          varCash := |var_cash|,
          varAplPromCash := adj var_cash (dot value cl_prom),
          varAplEstrCash := adj var_cash (dot value cl_estr),
          cvarCash := cvar_cash.map (fun x => |x|),
          cvarAplPromCash := cvar_cash.map (fun c => adj c (dot value cl_prom)),
          cvarAplEstrCash := cvar_cash.map (fun c => adj c (dot value cl_estr)) }
  else .error (.invalidParameter "conf")

/-- Box-and-equality constrained minimization problem handed to
scipy.optimize.minimize; a bounds pair is (lower, upper) with none for an
unbounded side; tol is the convergence tolerance passed by the caller. -/
structure OptProblem (n : ℕ) where
  objective : (Fin n → ℚ) → ℝ
  x0 : Fin n → ℚ
  bounds : Fin n → ℚ × Option ℚ
  constraintEq : (Fin n → ℚ) → ℚ
  tol : ℚ

/-- Abstract numerical solver (scipy.optimize.minimize): maps a problem to the
final iterate result.x.  The library gives no feasibility guarantee for it. -/
def Solver (n : ℕ) : Type := OptProblem n → (Fin n → ℚ)

/-- Column mean of a return window (DataFrame.mean()). -/
def colMeanF {n : ℕ} (rets : List (Fin n → ℚ)) : Fin n → ℚ :=
  fun i => meanD (rets.map (fun r => r i))

/-- Sample covariance of a return window (DataFrame.cov(), denominator T-1). -/
def sampleCov {n : ℕ} (rets : List (Fin n → ℚ)) : Fin n → Fin n → ℚ :=
  fun i j =>
    ((rets.map (fun r => (r i - colMeanF rets i) * (r j - colMeanF rets j))).sum) /
      ((rets.length : ℚ) - 1)

/-- Dot product on Fin-indexed vectors. -/
def dotF {n : ℕ} (a b : Fin n → ℚ) : ℚ := ∑ i, a i * b i

/-- Quadratic form w^T C w. -/
def quadForm {n : ℕ} (C : Fin n → Fin n → ℚ) (w : Fin n → ℚ) : ℚ :=
  ∑ i, ∑ j, w i * C i j * w j

/-- Problem built by OptimizePortfolioWeights.opt_max_sharpe: the objective is
-(mean daily excess return / daily volatility), where the daily risk-free
rate is risk_free / 252 (stored by the constructor as self.rf), the start
point is a vector of ones and the bounds are [0, inf) per asset. -/
noncomputable def sharpeProblem {n : ℕ} (rets : List (Fin n → ℚ)) (risk_free : ℚ) :
    OptProblem n :=
  { objective := fun w =>
      -(((dotF (colMeanF rets) w - risk_free / 252 : ℚ) : ℝ) /
        Real.sqrt ((quadForm (sampleCov rets) w : ℚ) : ℝ)),
    x0 := fun _ => 1,
    bounds := fun _ => (0, none),
    constraintEq := fun w => (∑ i, w i) - 1,
    tol := 1/10^16 }

/-- Model of OptimizePortfolioWeights.opt_max_sharpe: the solver iterate is
returned as-is (result.x, no feasibility check). -/
noncomputable def opt_max_sharpe {n : ℕ} (rets : List (Fin n → ℚ)) (risk_free : ℚ)
    (solver : Solver n) : Fin n → ℚ :=
  solver (sharpeProblem rets risk_free)

/-- Modelled from the spec: the annualized Max Sharpe objective asserted by
claim C3, with the mean return scaled by 252 and the volatility scaled by
sqrt 252, against the annualized risk-free rate. -/
noncomputable def annualSharpeObjective {n : ℕ} (rets : List (Fin n → ℚ))
    (risk_free : ℚ) (w : Fin n → ℚ) : ℝ :=
  -(((252 * dotF (colMeanF rets) w - risk_free : ℚ) : ℝ) /
    (Real.sqrt 252 * Real.sqrt ((quadForm (sampleCov rets) w : ℚ) : ℝ)))

/-- CVaR objective of opt_min_cvar: minus the mean of the portfolio returns at
or below the (100-alpha) percentile.  The tail always contains the sample
minimum, so for a nonempty window the mean is over a nonempty slice. -/
def cvarObjective {n : ℕ} (rets : List (Fin n → ℚ)) (alpha : ℚ) (w : Fin n → ℚ) : ℚ :=
  let pr := rets.map (fun row => ∑ i, row i * w i);
  let var := percentile pr (100 - alpha);
  -(meanD (pr.filter (fun x => decide (x ≤ var))))

/-- Model of OptimizePortfolioWeights.opt_min_cvar (SLSQP, tol 1e-8): alpha is
validated before the problem is built; the solver iterate is returned as-is. -/
noncomputable def opt_min_cvar {n : ℕ} (rets : List (Fin n → ℚ)) (alpha : ℚ)
    (solver : Solver n) : Except VErr (Fin n → ℚ) :=
  if confOK alpha then
    .ok (solver { objective := fun w => ((cvarObjective rets alpha w : ℚ) : ℝ),
                  x0 := fun _ => 1 / n,
                  bounds := fun _ => (0, some 1),
                  constraintEq := fun w => (∑ i, w i) - 1,
                  tol := 1/10^8 })
  else .error (.invalidParameter "alpha")

/-- Individual CVaR contributions used by opt_mcc (tail mask taken with ≤). -/
def mccContributions {n : ℕ} (rets : List (Fin n → ℚ)) (alpha : ℚ) (w : Fin n → ℚ) :
    List ℚ :=
  let pr := rets.map (fun row => ∑ i, row i * w i);
  let var := percentile pr (100 - alpha);
  let bad_days := pr.map (fun r => decide (r ≤ var));
  (List.finRange n).map (fun i =>
    -(meanD (maskSelect bad_days (rets.map (fun row => row i)))) * w i)

/-- Model of OptimizePortfolioWeights.opt_mcc (SLSQP, tol 1e-8): minimize the
largest individual CVaR contribution.  np.max of the contribution list is
its maximum (np.max raises on an empty list, i.e. a zero-asset universe;
the getD default is never reached for n > 0). -/
noncomputable def opt_mcc {n : ℕ} (rets : List (Fin n → ℚ)) (alpha : ℚ)
    (solver : Solver n) : Except VErr (Fin n → ℚ) :=
  if confOK alpha then
    .ok (solver { objective := fun w => (((mccContributions rets alpha w).max?.getD 0 : ℚ) : ℝ),
                  x0 := fun _ => 1 / n,
                  bounds := fun _ => (0, some 1),
                  constraintEq := fun w => (∑ i, w i) - 1,
                  tol := 1/10^8 })
  else .error (.invalidParameter "alpha")

/-- The six optimization strategies, in the column order of the simulation
output table. -/
inductive Strategy where
  | minVariance | sharpe | semivariance | omega | minCvar | mcc
deriving DecidableEq

/-- Loop state of DynamicBacktesting.simulation: day counter, period counter,
the currently held weight vectors and the six value series. -/
structure BTState where
  dayCounter : ℕ
  periodsCounter : ℕ
  weights : Strategy → List ℚ
  vals : Strategy → List ℚ

/-- Model of DynamicBacktesting.optimize_weights: slice the price history and
the benchmark history to the current rebalancing window (rows
n_days*periods .. n_days*(periods+1)) and hand both windows to the
optimizer.  opt abstracts the six scipy solver runs of the source (window
returns, covariance and the opt_* calls); it consumes exactly the two
slices, the remaining inputs (risk-free rate, alpha) being fixed. -/
def optimize_weights (opt : List (ℕ × List ℚ) → List (ℕ × List ℚ) → Strategy → List ℚ)
    (bench : List (ℕ × List ℚ)) (data : List (ℕ × List ℚ)) (n_days : ℕ) (periods : ℕ) :
    Strategy → List ℚ :=
  opt ((data.drop (n_days * periods)).take n_days)
      ((bench.drop (n_days * periods)).take n_days)

/-- One iteration of the simulation loop: if the day counter has not reached
the window length, grow every strategy value with the held weights;
otherwise re-optimize on the backtesting slice of the current period
counter first, then grow with the new weights, advance the period counter
and reset the day counter.  The trailing day_counter += 1 of the source is
folded into both branches. -/
def btStep (optW : ℕ → Strategy → List ℚ) (n_days : ℕ) (bret : List ℚ)
    (st : BTState) : BTState :=
  if st.dayCounter < n_days then
    { dayCounter := st.dayCounter + 1,
      periodsCounter := st.periodsCounter,
      weights := st.weights,
      vals := fun s => st.vals s ++ [(st.vals s).getLastD 0 * (1 + dot (st.weights s) bret)] }
  else
    let w2 := optW st.periodsCounter;
    { dayCounter := 1,
      periodsCounter := st.periodsCounter + 1,
      weights := w2,
      vals := fun s => st.vals s ++ [(st.vals s).getLastD 0 * (1 + dot (w2 s) bret)] }

/-- Run the simulation loop for k days from the initial state (weights already
optimized on the initial window, every value list starting at the capital). -/
def btRun (optW : ℕ → Strategy → List ℚ) (n_days : ℕ) (brets : ℕ → List ℚ)
    (w0 : Strategy → List ℚ) (capital : ℚ) : ℕ → BTState
  | 0 => { dayCounter := 0, periodsCounter := 0, weights := w0, vals := fun _ => [capital] }
  | k + 1 => btStep optW n_days (brets k) (btRun optW n_days brets w0 capital k)

/-- The nominal rebalancing window length in trading days:
round(len / round(len / 252 / (months / 12))).  In the source the inner
round returning 0 raises ZeroDivisionError; here the total ℚ division
yields 0, a case excluded by the 0 < simNDays hypotheses below. -/
def simNDays (len : ℕ) (months : ℚ) : ℕ :=
  (pyRound ((len : ℚ) / (pyRound ((len : ℚ) / 252 / (months / 12)) : ℚ))).toNat

/-- Output of the simulation: the date index and one value column per strategy. -/
structure SimResult where
  dates : List ℕ
  values : Strategy → List ℚ

/-- Model of DynamicBacktesting.simulation. -/
def simulation (opt : List (ℕ × List ℚ) → List (ℕ × List ℚ) → Strategy → List ℚ)
    (prices bench : List (ℕ × List ℚ)) (capital : ℚ) (months : ℚ) : SimResult :=
  let n := simNDays prices.length months
  let opt_data := prices.take n
  let backtesting_data := prices.drop n
  let backtesting_rets := pctChange (backtesting_data.map Prod.snd)
  let w0 := optimize_weights opt bench opt_data n 0;
  let final := btRun (fun p => optimize_weights opt bench backtesting_data n p) n
      (fun d => backtesting_rets.getD d []) w0 capital (backtesting_data.length - 1);
  { dates := backtesting_data.map Prod.fst, values := final.vals }

/-- The weight vectors in effect on simulated day d: the initial-window
vectors for the first n_days days, then the vectors of the most recent
re-optimization (period index d / n_days - 1). -/
def schedW (w0 : Strategy → List ℚ) (optW : ℕ → Strategy → List ℚ) (n_days d : ℕ) :
    Strategy → List ℚ :=
  if d < n_days then w0 else optW (d / n_days - 1)

/-- Day-by-day value of a strategy under a weight schedule. -/
def valueAt (capital : ℚ) (sched : ℕ → Strategy → List ℚ) (brets : ℕ → List ℚ)
    (s : Strategy) : ℕ → ℚ
  | 0 => capital
  | d + 1 => valueAt capital sched brets s d * (1 + dot (sched d s) (brets d))

/-- The weight schedule realized by the simulation on given inputs. -/
def simSchedule (opt : List (ℕ × List ℚ) → List (ℕ × List ℚ) → Strategy → List ℚ)
    (prices bench : List (ℕ × List ℚ)) (months : ℚ) : ℕ → Strategy → List ℚ :=
  let n := simNDays prices.length months;
  schedW (optimize_weights opt bench (prices.take n) n 0)
         (fun p => optimize_weights opt bench (prices.drop n) n p) n

/-- Realized out-of-sample return row of simulated day d. -/
def btRet (prices : List (ℕ × List ℚ)) (n d : ℕ) : List ℚ :=
  (pctChange ((prices.drop n).map Prod.snd)).getD d []

/-- A 32-day constant price history (dates 0..31, one asset at price 100);
with months = 1 the computed rebalancing window length is 16 days. -/
def testPrices : List (ℕ × List ℚ) := (List.range 32).map (fun i => (i, [100]))

/-- Benchmark price history aligned with testPrices. -/
def testBench : List (ℕ × List ℚ) := (List.range 32).map (fun i => (i, [100]))

/-- A concrete optimizer outcome used to instantiate the abstract solver
pipeline in witnesses and counterexamples: every strategy fully holds the
single asset. -/
def constOpt : List (ℕ × List ℚ) → List (ℕ × List ℚ) → Strategy → List ℚ :=
  fun _ _ _ => [1]

/-- Price history of a single asset with daily returns 1%, 2%, 3%. -/
def upPrices : List (ℕ × List ℚ) :=
  [(0, [100]), (1, [101]), (2, [10302/100]), (3, [1061106/10000])]

/-- Price history of a single asset with daily returns -10% and +2%. -/
def mixedPrices : List (ℕ × List ℚ) := [(0, [100]), (1, [90]), (2, [459/5])]

/-- Two-observation single-asset return window with mean 1 and sample
variance 2, used to evaluate the Sharpe objective concretely. -/
def retsC3 : List (Fin 1 → ℚ) := [fun _ => 0, fun _ => 2]

/-- The full-investment weight vector on one asset. -/
def oneW : Fin 1 → ℚ := fun _ => 1

/-- Single-asset return matrix with returns 1%, -2%, 3%, used for the
cvar_contributions witness. -/
def retsC7 : List (List ℚ) := [[1/100], [-2/100], [3/100]]

lemma getLastD_map_range (f : ℕ → ℚ) (k : ℕ) (d : ℚ) :
    ((List.range (k+1)).map f).getLastD d = f k := by
  rw [List.range_succ, List.map_append]
  simp

lemma getD_map_range {α : Type} (f : ℕ → α) {d : α} {k i : ℕ} (hi : i < k) :
    ((List.range k).map f).getD i d = f i := by
  rw [List.getD_eq_getElem?_getD, List.getElem?_map, List.getElem?_range hi]
  rfl

lemma valueAt_eq_prod (capital : ℚ) (sched : ℕ → Strategy → List ℚ)
    (brets : ℕ → List ℚ) (s : Strategy) (k : ℕ) :
    valueAt capital sched brets s k =
      capital * ∏ d ∈ Finset.range k, (1 + dot (sched d s) (brets d)) := by
  induction k with
  | zero => simp [valueAt]
  | succ k ih => rw [valueAt, ih, Finset.prod_range_succ, mul_assoc]

lemma step_mod_lt {n m : ℕ} (h : m % n + 1 < n) : (m + 1) % n = m % n + 1 := by
  have h1 : 1 % n = 1 := Nat.mod_eq_of_lt (by omega)
  rw [Nat.add_mod, h1]
  exact Nat.mod_eq_of_lt (by omega)

lemma step_not_dvd {n m : ℕ} (h : m % n + 1 < n) : ¬ n ∣ (m + 1) := by
  rw [Nat.dvd_iff_mod_eq_zero, step_mod_lt h]
  omega

lemma step_div_lt {n m : ℕ} (h : m % n + 1 < n) : (m + 1) / n = m / n :=
  Nat.succ_div_of_not_dvd (step_not_dvd h)

lemma boundary_mod {n m : ℕ} (hn : 0 < n) (h : ¬ (m % n + 1 < n)) :
    (m + 1) % n = 0 := by
  have hlt : m % n < n := Nat.mod_lt m hn
  have he : m % n + 1 = n := by omega
  have h2 : n = 1 ∨ 1 < n := by omega
  rcases h2 with h2 | h2
  · subst h2; simp [Nat.mod_one]
  · rw [Nat.add_mod, Nat.mod_eq_of_lt h2, he, Nat.mod_self]

lemma boundary_div {n m : ℕ} (hn : 0 < n) (h : ¬ (m % n + 1 < n)) :
    (m + 1) / n = m / n + 1 :=
  Nat.succ_div_of_dvd (by rw [Nat.dvd_iff_mod_eq_zero]; exact boundary_mod hn h)

lemma schedW_step_lt {n m : ℕ} (w0 : Strategy → List ℚ)
    (optW : ℕ → Strategy → List ℚ) (h : m % n + 1 < n) :
    schedW w0 optW n (m + 1) = schedW w0 optW n m := by
  unfold schedW
  by_cases hm : m + 1 < n
  · rw [if_pos hm, if_pos (by omega)]
  · have hmm : m % n = m → False := fun he => by omega
    have hne : m + 1 ≠ n := by
      intro he
      exact hmm (Nat.mod_eq_of_lt (by omega))
    have hm2 : ¬ m < n := by omega
    rw [if_neg hm, if_neg hm2, step_div_lt h]

lemma schedW_step_ge {n m : ℕ} (w0 : Strategy → List ℚ)
    (optW : ℕ → Strategy → List ℚ) (hn : 0 < n) (h : ¬ (m % n + 1 < n)) :
    schedW w0 optW n (m + 1) = optW (m / n) := by
  have hlt : m % n < n := Nat.mod_lt m hn
  have hle : m % n ≤ m := Nat.mod_le m n
  have hge : ¬ (m + 1 < n) := by omega
  unfold schedW
  rw [if_neg hge, boundary_div hn h]
  simp

lemma vals_append_step (capital : ℚ) (sched : ℕ → Strategy → List ℚ)
    (brets : ℕ → List ℚ) (s : Strategy) (k : ℕ) (W : Strategy → List ℚ)
    (hW : W s = sched k s) :
    (List.range (k+1)).map (valueAt capital sched brets s) ++
      [((List.range (k+1)).map (valueAt capital sched brets s)).getLastD 0 *
        (1 + dot (W s) (brets k))]
    = (List.range (k+2)).map (valueAt capital sched brets s) := by
  rw [getLastD_map_range, hW]
  rw [show k + 2 = (k + 1) + 1 from rfl, List.range_succ (k+1), List.map_append]
  rfl

lemma btstate_mk_congr {a1 a2 b1 b2 : ℕ} {w1 w2 v1 v2 : Strategy → List ℚ}
    (ha : a1 = a2) (hb : b1 = b2) (hw : w1 = w2) (hv : v1 = v2) :
    BTState.mk a1 b1 w1 v1 = BTState.mk a2 b2 w2 v2 := by
  subst ha; subst hb; subst hw; subst hv; rfl

lemma btRun_spec (optW : ℕ → Strategy → List ℚ) (n : ℕ) (brets : ℕ → List ℚ)
    (w0 : Strategy → List ℚ) (capital : ℚ) (hn : 0 < n) : ∀ k : ℕ,
    btRun optW n brets w0 capital k =
      { dayCounter := if k = 0 then 0 else (k - 1) % n + 1,
        periodsCounter := (k - 1) / n,
        weights := schedW w0 optW n (k - 1),
        vals := fun s => (List.range (k + 1)).map
          (valueAt capital (schedW w0 optW n) brets s) } := by
  intro k
  induction k with
  | zero =>
    show BTState.mk 0 0 w0 (fun _ => [capital]) = _
    refine btstate_mk_congr (by simp) (by simp) (by simp [schedW, hn]) ?_
    funext s
    rfl
  | succ k ih =>
    have hstep : btRun optW n brets w0 capital (k+1)
        = btStep optW n (brets k) (btRun optW n brets w0 capital k) := rfl
    rw [hstep, ih]
    unfold btStep
    dsimp only
    rcases Nat.eq_zero_or_pos k with hk | hk
    · subst hk
      rw [if_pos (by simpa using hn)]
      refine btstate_mk_congr (by simp) (by simp) rfl ?_
      funext s
      exact vals_append_step capital (schedW w0 optW n) brets s 0 _ rfl
    · obtain ⟨m, rfl⟩ : ∃ m, k = m + 1 := ⟨k - 1, by omega⟩
      simp only [Nat.succ_ne_zero, if_neg, Nat.add_sub_cancel]
      by_cases hc : m % n + 1 < n
      · rw [if_pos (by simpa using hc)]
        have hw : schedW w0 optW n m = schedW w0 optW n (m + 1) :=
          (schedW_step_lt w0 optW hc).symm
        refine btstate_mk_congr (by simp [step_mod_lt hc]) (by simp [step_div_lt hc]) hw ?_
        funext s
        exact vals_append_step capital (schedW w0 optW n) brets s (m+1) _
          (congrFun hw s)
      · rw [if_neg (by simpa using hc)]
        have hw : optW (m / n) = schedW w0 optW n (m + 1) :=
          (schedW_step_ge w0 optW hn hc).symm
        refine btstate_mk_congr (by simp [boundary_mod hn hc]) (by simp [boundary_div hn hc]) hw ?_
        funext s
        exact vals_append_step capital (schedW w0 optW n) brets s (m+1) _
          (congrFun hw s)

lemma simulation_values (opt : List (ℕ × List ℚ) → List (ℕ × List ℚ) → Strategy → List ℚ)
    (prices bench : List (ℕ × List ℚ)) (capital months : ℚ)
    (hn : 0 < simNDays prices.length months) :
    (simulation opt prices bench capital months).values = fun s =>
      (List.range ((prices.drop (simNDays prices.length months)).length - 1 + 1)).map
        (valueAt capital (simSchedule opt prices bench months)
          (btRet prices (simNDays prices.length months)) s) := by
  simp only [simulation]
  rw [btRun_spec _ _ _ _ _ hn]
  rfl

lemma simulation_dates (opt : List (ℕ × List ℚ) → List (ℕ × List ℚ) → Strategy → List ℚ)
    (prices bench : List (ℕ × List ℚ)) (capital months : ℚ) :
    (simulation opt prices bench capital months).dates =
      (prices.drop (simNDays prices.length months)).map Prod.fst := rfl

lemma testPrices_length : testPrices.length = 32 := by decide

lemma simNDays_32_1 : simNDays 32 1 = 16 := by
  norm_num [simNDays, pyRound]
  rfl

lemma simNDays_test : simNDays testPrices.length 1 = 16 := by
  rw [testPrices_length, simNDays_32_1]

/-- C2: in DynamicBacktesting.simulation every strategy value series obeys
the recurrence value[d+1] = value[d] * (1 + sum_i realized_return_(d,i) *
weight_i) with the realized out-of-sample return of day d (btRet, taken from
the backtesting region), and the last value equals the initial capital
multiplied by the product of the daily growth factors over all simulated
days. -/
theorem simulation_daily_recurrence_and_compounding
    (opt : List (ℕ × List ℚ) → List (ℕ × List ℚ) → Strategy → List ℚ)
    (prices bench : List (ℕ × List ℚ)) (capital months : ℚ)
    (hn : 0 < simNDays prices.length months) (s : Strategy) :
    (∀ d, d < (prices.drop (simNDays prices.length months)).length - 1 →
      ((simulation opt prices bench capital months).values s).getD (d+1) 0 =
        ((simulation opt prices bench capital months).values s).getD d 0 *
          (1 + dot (simSchedule opt prices bench months d s)
            (btRet prices (simNDays prices.length months) d))) ∧
    ((simulation opt prices bench capital months).values s).getLastD 0 =
      capital * ∏ d ∈ Finset.range ((prices.drop (simNDays prices.length months)).length - 1),
        (1 + dot (simSchedule opt prices bench months d s)
          (btRet prices (simNDays prices.length months) d)) := by
  rw [simulation_values opt prices bench capital months hn]
  constructor
  · intro d hd
    rw [getD_map_range _ (by omega), getD_map_range _ (by omega)]
    rfl
  · rw [getLastD_map_range, valueAt_eq_prod]

/-- Witness for C2 at a concrete instance: 32 constant prices, one-month
rebalancing (window 16), a concrete optimizer outcome; the hypothesis
0 < window length is discharged by evaluation. -/
theorem simulation_daily_recurrence_witness :
    ((simulation constOpt testPrices testBench 1000 1).values Strategy.sharpe).getLastD 0 =
      1000 * ∏ d ∈ Finset.range ((testPrices.drop (simNDays testPrices.length 1)).length - 1),
        (1 + dot (simSchedule constOpt testPrices testBench 1 d Strategy.sharpe)
          (btRet testPrices (simNDays testPrices.length 1) d)) :=
  (simulation_daily_recurrence_and_compounding constOpt testPrices testBench 1000 1
    (by rw [simNDays_test]; norm_num) Strategy.sharpe).2

/-- C5: throughout the simulation (i) on every simulated day all six strategy
values are grown with the weight vectors simSchedule d of one shared
schedule (the most recent optimization); (ii) for the first window the
schedule is the initial-window optimization, and from day n_days on it is
the re-optimization on backtesting slice d / n_days - 1, i.e. rows
n_days*(d/n_days-1) .. n_days*(d/n_days-1)+n_days of the backtesting region;
(iii) that slice ends at or before backtesting row d, while the day-d growth
uses the return between backtesting rows d and d+1, so the weights applied
to any day come only from price rows strictly before that day; (iv) the
schedule is constant between rebalancing boundaries (days d+1 with
n_days dividing d+1). -/
theorem simulation_weights_schedule_no_lookahead
    (opt : List (ℕ × List ℚ) → List (ℕ × List ℚ) → Strategy → List ℚ)
    (prices bench : List (ℕ × List ℚ)) (capital months : ℚ)
    (hn : 0 < simNDays prices.length months) :
    (∀ s d, d < (prices.drop (simNDays prices.length months)).length - 1 →
      ((simulation opt prices bench capital months).values s).getD (d+1) 0 =
        ((simulation opt prices bench capital months).values s).getD d 0 *
          (1 + dot (simSchedule opt prices bench months d s)
            (btRet prices (simNDays prices.length months) d))) ∧
    (∀ d, d < simNDays prices.length months →
      simSchedule opt prices bench months d =
        optimize_weights opt bench (prices.take (simNDays prices.length months))
          (simNDays prices.length months) 0) ∧
    (∀ d, simNDays prices.length months ≤ d →
      simSchedule opt prices bench months d =
        optimize_weights opt bench (prices.drop (simNDays prices.length months))
          (simNDays prices.length months) (d / simNDays prices.length months - 1)) ∧
    (∀ d, simNDays prices.length months ≤ d →
      simNDays prices.length months * (d / simNDays prices.length months - 1) +
        simNDays prices.length months ≤ d) ∧
    (∀ d, ¬ (simNDays prices.length months ∣ (d+1)) →
      simSchedule opt prices bench months (d+1) = simSchedule opt prices bench months d) := by
  set n := simNDays prices.length months with hnd
  refine ⟨?_, ?_, ?_, ?_, ?_⟩
  · intro s d hd
    rw [simulation_values opt prices bench capital months hn]
    simp only [← hnd] at hd ⊢
    rw [getD_map_range _ (by omega), getD_map_range _ (by omega)]
    rfl
  · intro d hd
    simp only [simSchedule, schedW]
    rw [if_pos hd]
  · intro d hd
    simp only [simSchedule, schedW]
    rw [if_neg (by omega)]
  · intro d hd
    have h1 : 1 ≤ d / n := (Nat.one_le_div_iff hn).mpr hd
    have h2 : d / n * n ≤ d := Nat.div_mul_le_self d n
    obtain ⟨k, hk⟩ := Nat.exists_eq_add_of_le h1
    rw [hk] at h2 ⊢
    have h4 : (1 + k) * n = n + k * n := by ring
    rw [h4] at h2
    have h5 : n * (1 + k - 1) = k * n := by
      rw [Nat.add_sub_cancel_left]
      exact Nat.mul_comm n k
    rw [h5]
    omega
  · intro d hd
    by_cases hlt : d + 1 < n
    · simp only [simSchedule, schedW]
      rw [if_pos hlt, if_pos (by omega)]
    · have hne : d + 1 ≠ n := by
        intro he
        exact hd (he ▸ dvd_refl n)
      have hge : n ≤ d := by omega
      simp only [simSchedule, schedW]
      rw [if_neg hlt, if_neg (by omega), Nat.succ_div_of_not_dvd hd]

/-- Witness for C5 at the concrete 32-day instance: on day 0 the schedule is
the initial-window optimization. -/
theorem simulation_weights_schedule_witness :
    simSchedule constOpt testPrices testBench 1 0 =
      optimize_weights constOpt testBench
        (testPrices.take (simNDays testPrices.length 1)) (simNDays testPrices.length 1) 0 :=
  (simulation_weights_schedule_no_lookahead constOpt testPrices testBench 1000 1
    (by rw [simNDays_test]; norm_num)).2.1 0 (by rw [simNDays_test]; norm_num)

lemma headD_map_range (f : ℕ → ℚ) (k : ℕ) :
    ((List.range (k+1)).map f).headD 0 = f 0 := by
  rw [List.range_succ_eq_map]
  rfl

/-- C4 counterexample: on the concrete 32-day instance the date index of the
simulation output is the full backtesting-region index (the initial-capital
row occupies the first date), not that index minus the first row as the
claim states. -/
theorem simulation_dates_counterexample :
    (simulation constOpt testPrices testBench 1000 1).dates ≠
      ((testPrices.drop (simNDays testPrices.length 1)).map Prod.fst).tail := by
  rw [simulation_dates, simNDays_test]
  decide

/-- C4 (amended): the simulation output has one value series per strategy,
every series starts at the supplied initial capital, has exactly one row per
backtesting-region date, and its date index is the full date index of the
backtesting region (the return differencing loses one row, so there are
length - 1 growth rows after the initial-capital row). -/
theorem simulation_output_shape
    (opt : List (ℕ × List ℚ) → List (ℕ × List ℚ) → Strategy → List ℚ)
    (prices bench : List (ℕ × List ℚ)) (capital months : ℚ)
    (hn : 0 < simNDays prices.length months)
    (hlt : simNDays prices.length months < prices.length) :
    (simulation opt prices bench capital months).dates =
      (prices.drop (simNDays prices.length months)).map Prod.fst ∧
    (∀ s, ((simulation opt prices bench capital months).values s).headD 0 = capital) ∧
    (∀ s, ((simulation opt prices bench capital months).values s).length =
      (prices.drop (simNDays prices.length months)).length) := by
  refine ⟨simulation_dates opt prices bench capital months, ?_, ?_⟩
  · intro s
    rw [simulation_values opt prices bench capital months hn, headD_map_range]
    rfl
  · intro s
    rw [simulation_values opt prices bench capital months hn]
    simp only [List.length_map, List.length_range, List.length_drop]
    omega

/-- Witness for C4 (amended) at the concrete 32-day instance: the Min Variance
series starts at the initial capital 1000. -/
theorem simulation_output_shape_witness :
    ((simulation constOpt testPrices testBench 1000 1).values Strategy.minVariance).headD 0
      = 1000 :=
  (simulation_output_shape constOpt testPrices testBench 1000 1
    (by rw [simNDays_test]; norm_num)
    (by rw [simNDays_test, testPrices_length]; norm_num)).2.1 Strategy.minVariance

/-- C9: each of the six VaR/CVaR operations and both CVaR-based optimizations
yields the InvalidParameter error if and only if the confidence level is
outside (0,100); the quantification over all data arguments shows the gate
fires before, and independently of, any numerical work on the input data. -/
theorem validation_gate_iff (conf : ℚ) (data : List (ℕ × List ℚ)) (ns : List ℚ)
    (long : Bool) (sel : List ℕ) (w : List ℚ) (rets : List (List ℚ))
    (bids asks : List (List ℚ)) (pos : List ℚ) {n : ℕ}
    (fr : List (Fin n → ℚ)) (solver : Solver n) :
    ((var_stocks data ns conf long sel = .error (.invalidParameter "conf")) ↔ ¬ confOK conf) ∧
    ((var_forex data pos conf long sel = .error (.invalidParameter "conf")) ↔ ¬ confOK conf) ∧
    ((var_weights data w conf = .error (.invalidParameter "conf")) ↔ ¬ confOK conf) ∧
    ((cvar_weights data w conf = .error (.invalidParameter "conf")) ↔ ¬ confOK conf) ∧
    ((cvar_contributions w rets conf = .error (.invalidParameter "alpha")) ↔ ¬ confOK conf) ∧
    ((var_apl bids asks pos conf long = .error (.invalidParameter "conf")) ↔ ¬ confOK conf) ∧
    ((opt_min_cvar fr conf solver = .error (.invalidParameter "alpha")) ↔ ¬ confOK conf) ∧
    ((opt_mcc fr conf solver = .error (.invalidParameter "alpha")) ↔ ¬ confOK conf) := by
  by_cases h : confOK conf <;>
    simp [var_stocks, var_forex, var_weights, cvar_weights, cvar_contributions,
      var_apl, opt_min_cvar, opt_mcc, h]

/-- C7: for a valid alpha, cvar_contributions returns the list whose entry i
(for every i below the number of weights) is
-mean(asset i returns on the portfolio tail days) * weights[i], where the
portfolio tail-day set portfolioTailMask is determined once from the
portfolio-level percentile and that same set is used for every asset. -/
theorem cvar_contributions_shared_tail (w : List ℚ) (rets : List (List ℚ)) (alpha : ℚ)
    (h : confOK alpha) (i : ℕ) (hi : i < w.length) :
    ∃ cs, cvar_contributions w rets alpha = .ok cs ∧
      cs.getD i none =
        (listMean (maskSelect (portfolioTailMask w rets alpha) (colD rets i))).map
          (fun m => -m * w.getD i 0) := by
  refine ⟨_, by rw [cvar_contributions, if_pos h], ?_⟩
  rw [getD_map_range _ hi]

/-- Witness for C7: single asset, returns 1%, -2%, 3%, alpha 95. -/
theorem cvar_contributions_shared_tail_witness :
    ∃ cs, cvar_contributions [1] retsC7 95 = .ok cs ∧
      cs.getD 0 none =
        (listMean (maskSelect (portfolioTailMask [1] retsC7 95) (colD retsC7 0))).map
          (fun m => -m * ([1] : List ℚ).getD 0 0) :=
  cvar_contributions_shared_tail [1] retsC7 95 (by norm_num [confOK]) 0 (by norm_num)

lemma sharpe_annualization {n : ℕ} (rets : List (Fin n → ℚ)) (rf : ℚ) (w : Fin n → ℚ) :
    annualSharpeObjective rets rf w =
      Real.sqrt 252 * (sharpeProblem rets rf).objective w := by
  unfold annualSharpeObjective sharpeProblem
  dsimp only
  have hnum : ((252 * dotF (colMeanF rets) w - rf : ℚ) : ℝ) =
      252 * ((dotF (colMeanF rets) w - rf / 252 : ℚ) : ℝ) := by
    push_cast
    ring
  rw [hnum]
  have hs : Real.sqrt 252 ≠ 0 := by positivity
  nth_rewrite 1 [show (252 : ℝ) = Real.sqrt 252 * Real.sqrt 252 from
    (Real.mul_self_sqrt (by norm_num)).symm]
  rw [mul_assoc, mul_div_mul_left _ _ hs, mul_neg, mul_div_assoc]

/-- C3 counterexample: at the concrete window retsC3 (daily mean 1, sample
variance 2), risk-free rate 0 and full weight on the single asset, the
objective opt_max_sharpe hands to the solver differs from the annualized
objective asserted by the claim (the two differ by the factor sqrt 252). -/
theorem sharpe_objective_not_annualized :
    (sharpeProblem retsC3 0).objective oneW ≠ annualSharpeObjective retsC3 0 oneW := by
  intro he
  have hrel := sharpe_annualization retsC3 0 oneW
  rw [← he] at hrel
  have hobj : (sharpeProblem retsC3 0).objective oneW < 0 := by
    have h1 : dotF (colMeanF retsC3) oneW = 1 := by
      norm_num [dotF, colMeanF, meanD, retsC3, oneW, Fin.sum_univ_one]
    have h2 : quadForm (sampleCov retsC3) oneW = 2 := by
      norm_num [quadForm, sampleCov, colMeanF, meanD, retsC3, oneW, Fin.sum_univ_one]
    show -(((dotF (colMeanF retsC3) oneW - 0 / 252 : ℚ) : ℝ) /
        Real.sqrt ((quadForm (sampleCov retsC3) oneW : ℚ) : ℝ)) < 0
    rw [h1, h2]
    have hs2 : (0:ℝ) < Real.sqrt 2 := Real.sqrt_pos.mpr (by norm_num)
    have hc : ((1 - 0 / 252 : ℚ) : ℝ) = 1 := by norm_num
    rw [show ((1 : ℚ) - 0 / 252 : ℚ) = 1 by norm_num]
    rw [show (((1 : ℚ) : ℝ)) = (1 : ℝ) by norm_num]
    rw [show (((2 : ℚ) : ℝ)) = (2 : ℝ) by norm_num]
    have : (0:ℝ) < 1 / Real.sqrt 2 := by positivity
    linarith
  have hs : Real.sqrt 252 ≠ 1 := by
    intro h
    have h252 := Real.sq_sqrt (by norm_num : (0:ℝ) ≤ 252)
    rw [h] at h252
    norm_num at h252
  have hz : (sharpeProblem retsC3 0).objective oneW * (1 - Real.sqrt 252) = 0 := by
    have hc := hrel
    rw [mul_comm] at hc
    rw [mul_sub, mul_one]
    linarith
  rcases mul_eq_zero.mp hz with h0 | h0
  · exact absurd h0 (ne_of_lt hobj)
  · have : Real.sqrt 252 = 1 := by linarith
    exact hs this

/-- C3 (amended): opt_max_sharpe passes to the solver the problem whose
objective is the DAILY form -(mu.w - rf/252) / sqrt(w C w) (daily mean and
covariance, risk-free rate divided by 252, no annualization scaling), with
box bound [0, inf) per asset, the sum-to-one equality constraint, and the
solver iterate returned unchanged; the annualized objective asserted by the
claim equals sqrt 252 times the daily objective, so the two objectives have
identical minimizers although they are different functions. -/
theorem sharpe_objective_daily_form {n : ℕ} (rets : List (Fin n → ℚ)) (rf : ℚ) :
    (∀ w, annualSharpeObjective rets rf w =
      Real.sqrt 252 * (sharpeProblem rets rf).objective w) ∧
    (sharpeProblem rets rf).bounds = (fun _ => (0, none)) ∧
    (sharpeProblem rets rf).constraintEq = (fun w => (∑ i, w i) - 1) ∧
    (∀ solver : Solver n, opt_max_sharpe rets rf solver = solver (sharpeProblem rets rf)) :=
  ⟨fun w => sharpe_annualization rets rf w, rfl, rfl, fun _ => rfl⟩

lemma sum_lt_of_all_lt (l : List ℚ) (v : ℚ) (hne : l ≠ []) (h : ∀ x ∈ l, x < v) :
    l.sum < (l.length : ℚ) * v := by
  induction l with
  | nil => exact absurd rfl hne
  | cons a t ih =>
    rcases eq_or_ne t [] with rfl | ht
    · simpa using h a (by simp)
    · have hs := ih ht (fun x hx => h x (List.mem_cons_of_mem a hx))
      have ha := h a (List.mem_cons_self a t)
      simp only [List.sum_cons, List.length_cons]
      push_cast
      nlinarith [hs, ha]

lemma mean_lt_of_all_lt (l : List ℚ) (v : ℚ) (hne : l ≠ []) (h : ∀ x ∈ l, x < v) :
    l.sum / (l.length : ℚ) < v := by
  have hlen : (0:ℚ) < (l.length : ℚ) := by
    have : 0 < l.length := List.length_pos.mpr hne
    exact_mod_cast this
  rw [div_lt_iff₀ hlen]
  have hs := sum_lt_of_all_lt l v hne h
  have hc : (l.length : ℚ) * v = v * (l.length : ℚ) := mul_comm _ _
  linarith

lemma tail_mean_dominates (pr : List ℚ) (v : ℚ) (hv : v ≤ 0)
    (hne : ∃ x ∈ pr, x < v) :
    ∃ m, (listMean (pr.filter (fun x => decide (x < v)))).map (fun x => |x|) = some m ∧
      |v| ≤ m := by
  obtain ⟨x0, hx0m, hx0⟩ := hne
  have hmem : x0 ∈ pr.filter (fun x => decide (x < v)) :=
    List.mem_filter.mpr ⟨hx0m, by simpa using hx0⟩
  have hnil : pr.filter (fun x => decide (x < v)) ≠ [] := by
    intro h0
    rw [h0] at hmem
    simp at hmem
  have hall : ∀ x ∈ pr.filter (fun x => decide (x < v)), x < v := by
    intro x hx
    simpa using (List.mem_filter.mp hx).2
  have hmean := mean_lt_of_all_lt _ v hnil hall
  have hempty : (pr.filter (fun x => decide (x < v))).isEmpty = false := by
    simpa [List.isEmpty_iff] using hnil
  refine ⟨|(pr.filter (fun x => decide (x < v))).sum /
    ((pr.filter (fun x => decide (x < v))).length : ℚ)|, ?_, ?_⟩
  · simp [listMean, hempty]
  · have h1 : (pr.filter (fun x => decide (x < v))).sum /
        ((pr.filter (fun x => decide (x < v))).length : ℚ) < 0 :=
      lt_of_lt_of_le hmean hv
    rw [abs_of_nonpos hv, abs_of_nonpos (le_of_lt h1)]
    linarith

/-- C6 (amended): for a valid confidence level, whenever the percentile
threshold of the portfolio return series is at most 0 and some portfolio
return lies strictly below it (a nonempty loss tail), the magnitude returned
by cvar_weights is at least the magnitude returned by var_weights.  When the
threshold is positive, or the strict tail is empty (NaN mean), the
inequality of the claim fails. -/
theorem cvar_ge_var_of_nonpos_threshold (data : List (ℕ × List ℚ)) (w : List ℚ)
    (conf : ℚ) (h : confOK conf)
    (hv : percentile (portRets data w) (100 - conf) ≤ 0)
    (hne : ∃ x ∈ portRets data w, x < percentile (portRets data w) (100 - conf)) :
    ∃ m, cvar_weights data w conf = .ok (some m) ∧
      var_weights data w conf = .ok |percentile (portRets data w) (100 - conf)| ∧
      |percentile (portRets data w) (100 - conf)| ≤ m := by
  obtain ⟨m, hm, hle⟩ := tail_mean_dominates (portRets data w)
    (percentile (portRets data w) (100 - conf)) hv hne
  refine ⟨m, ?_, ?_, hle⟩
  · rw [cvar_weights, if_pos h]
    exact congrArg Except.ok hm
  · rw [var_weights, if_pos h]

lemma portRets_mixed : portRets mixedPrices [1] = [-1/10, 1/50] := by
  norm_num [portRets, mixedPrices, sortIndex, pctChange, dot,
    List.insertionSort, List.orderedInsert]

lemma percentile_mixed : percentile [-1/10, 1/50] 5 = -47/500 := by
  norm_num [percentile, List.insertionSort, List.orderedInsert]

/-- Witness for C6 (amended): single asset with returns -10% and +2% at
confidence 95; the threshold is -47/500 and the tail mean magnitude 1/10
dominates it. -/
theorem cvar_ge_var_witness :
    ∃ m, cvar_weights mixedPrices [1] 95 = .ok (some m) ∧
      var_weights mixedPrices [1] 95 =
        .ok |percentile (portRets mixedPrices [1]) (100 - 95)| ∧
      |percentile (portRets mixedPrices [1]) (100 - 95)| ≤ m :=
  cvar_ge_var_of_nonpos_threshold mixedPrices [1] 95 (by norm_num [confOK])
    (by rw [portRets_mixed, show (100:ℚ) - 95 = 5 by norm_num, percentile_mixed]
        norm_num)
    (by rw [portRets_mixed, show (100:ℚ) - 95 = 5 by norm_num, percentile_mixed]
        exact ⟨-1/10, by norm_num, by norm_num⟩)

lemma portRets_up : portRets upPrices [1] = [1/100, 1/50, 3/100] := by
  norm_num [portRets, upPrices, sortIndex, pctChange, dot,
    List.insertionSort, List.orderedInsert]

lemma percentile_up : percentile [1/100, 1/50, 3/100] 90 = 7/250 := by
  norm_num [percentile, List.insertionSort, List.orderedInsert]

/-- C6 counterexample: single asset with returns 1%, 2%, 3% at confidence 10;
the percentile threshold is +7/250 (var_weights returns 7/250), while the
tail mean is 3/200 < 7/250, so the CVaR magnitude is strictly below the VaR
magnitude, refuting the claimed inequality. -/
theorem cvar_less_than_var_counterexample :
    cvar_weights upPrices [1] 10 = .ok (some (3/200)) ∧
    var_weights upPrices [1] 10 = .ok (7/250) ∧
    ¬ ((7/250 : ℚ) ≤ 3/200) := by
  refine ⟨?_, ?_, by norm_num⟩
  · rw [cvar_weights, if_pos (by norm_num [confOK])]
    simp only [portRets_up, show (100:ℚ) - 10 = 90 by norm_num, percentile_up]
    norm_num [listMean]
  · rw [var_weights, if_pos (by norm_num [confOK])]
    simp only [portRets_up, show (100:ℚ) - 10 = 90 by norm_num, percentile_up]
    norm_num

lemma dot_replicate_zero (n : ℕ) (row : List ℚ) : dot (List.replicate n 0) row = 0 := by
  induction n generalizing row with
  | zero => simp [dot]
  | succ k ih =>
    cases row with
    | nil => simp [dot]
    | cons b t =>
      have h2 := ih t
      simp only [dot, List.replicate_succ, List.zipWith_cons_cons, List.sum_cons] at h2 ⊢
      simpa using h2

lemma getD_zero_of_all_zero (s : List ℚ) (h : ∀ x ∈ s, x = 0) (i : ℕ) :
    s.getD i 0 = 0 := by
  induction s generalizing i with
  | nil => simp
  | cons a t ih =>
    cases i with
    | zero => simpa using h a (by simp)
    | succ j => simpa using ih (fun x hx => h x (by simp [hx])) j

lemma percentile_of_all_zero (l : List ℚ) (h : ∀ x ∈ l, x = 0) (q : ℚ) :
    percentile l q = 0 := by
  have hs : ∀ x ∈ List.insertionSort (fun a b => a ≤ b) l, x = 0 := fun x hx =>
    h x ((List.perm_insertionSort _ l).mem_iff.mp hx)
  simp only [percentile]
  rw [getD_zero_of_all_zero _ hs]
  rw [getD_zero_of_all_zero _ hs]
  ring

lemma filter_lt_zero_of_all_zero (l : List ℚ) (h : ∀ x ∈ l, x = 0) (v : ℚ)
    (hv : v = 0) : l.filter (fun x => decide (x < v)) = [] := by
  subst hv
  induction l with
  | nil => rfl
  | cons a t ih =>
    have ha := h a (by simp)
    rw [List.filter_cons]
    have hd : decide (a < 0) = false := by simp [ha]
    rw [hd]
    simp only [Bool.false_eq_true, if_false]
    exact ih (fun x hx => h x (by simp [hx]))

lemma portRets_zero_weights (data : List (ℕ × List ℚ)) (n : ℕ) :
    ∀ x ∈ portRets data (List.replicate n 0), x = 0 := by
  intro x hx
  simp only [portRets, List.mem_map] at hx
  obtain ⟨row, _, hrow⟩ := hx
  rw [← hrow]
  exact dot_replicate_zero n row

/-- C8 (amended): for any price history with at least two return observations
(the scope of the original claim; with an empty return sample np.percentile
raises, a path outside this model) and any valid confidence level, the
all-zero weight vector gives VaR exactly 0, and cvar_weights raises no error
but returns the NaN mean of the empty tail slice (modelled none), not zero. -/
theorem zero_weights_var_zero_cvar_nan (data : List (ℕ × List ℚ)) (n : ℕ) (conf : ℚ)
    (h : confOK conf)
    (_hobs : 2 ≤ (pctChange ((sortIndex data).map Prod.snd)).length) :
    var_weights data (List.replicate n 0) conf = .ok 0 ∧
    cvar_weights data (List.replicate n 0) conf = .ok none := by
  have hz := portRets_zero_weights data n
  have hp : percentile (portRets data (List.replicate n 0)) (100 - conf) = 0 :=
    percentile_of_all_zero _ hz _
  constructor
  · rw [var_weights, if_pos h, hp]
    norm_num
  · rw [cvar_weights, if_pos h]
    show Except.ok ((listMean ((portRets data (List.replicate n 0)).filter
        (fun x => decide (x < percentile (portRets data (List.replicate n 0))
          (100 - conf))))).map (fun x => |x|)) = _
    rw [filter_lt_zero_of_all_zero _ hz _ hp]
    rfl

lemma upPrices_obs : (pctChange ((sortIndex upPrices).map Prod.snd)).length = 3 := by
  norm_num [upPrices, sortIndex, pctChange, List.insertionSort, List.orderedInsert]

/-- Witness for C8 (amended) on a concrete price history with three return
observations, at confidence 95. -/
theorem zero_weights_var_zero_cvar_nan_witness :
    var_weights upPrices (List.replicate 1 0) 95 = .ok 0 ∧
    cvar_weights upPrices (List.replicate 1 0) 95 = .ok none :=
  zero_weights_var_zero_cvar_nan upPrices 1 95 (by norm_num [confOK])
    (by rw [upPrices_obs]; norm_num)

/-- C8 counterexample: on a concrete history with the all-zero weight vector,
cvar_weights does not return zero: the tail below the zero threshold is
empty, so the mean is NaN (none). -/
theorem cvar_zero_weights_counterexample :
    cvar_weights upPrices [0] 95 ≠ .ok (some 0) := by
  have hz : ∀ x ∈ portRets upPrices [0], x = 0 := by
    rw [show ([0] : List ℚ) = List.replicate 1 0 from rfl]
    exact portRets_zero_weights upPrices 1
  have hp : percentile (portRets upPrices [0]) (100 - 95) = 0 :=
    percentile_of_all_zero _ hz _
  rw [cvar_weights, if_pos (by norm_num [confOK])]
  show Except.ok ((listMean ((portRets upPrices [0]).filter
      (fun x => decide (x < percentile (portRets upPrices [0]) (100 - 95))))).map
        (fun x => |x|)) ≠ _
  rw [filter_lt_zero_of_all_zero _ hz _ hp]
  simp [listMean]

lemma dot_map_mul (c : ℚ) (w row : List ℚ) :
    dot (w.map (fun x => c * x)) row = c * dot w row := by
  induction w generalizing row with
  | nil => simp [dot]
  | cons a t ih =>
    cases row with
    | nil => simp [dot]
    | cons b r =>
      have h2 := ih r
      simp only [dot, List.map_cons, List.zipWith_cons_cons, List.sum_cons] at h2 ⊢
      rw [h2]
      ring

lemma sorted_map_mul (c : ℚ) (hc : 0 < c) (l : List ℚ) :
    List.insertionSort (fun a b => a ≤ b) (l.map (fun x => c * x)) =
      (List.insertionSort (fun a b => a ≤ b) l).map (fun x => c * x) := by
  have hanti : IsAntisymm ℚ (fun a b => a ≤ b) := ⟨fun _ _ h1 h2 => le_antisymm h1 h2⟩
  apply @List.eq_of_perm_of_sorted ℚ (fun a b => a ≤ b) hanti
  · exact (List.perm_insertionSort _ _).trans
      (((List.perm_insertionSort (fun a b => a ≤ b) l).map _).symm)
  · exact List.sorted_insertionSort _ _
  · have hs := List.sorted_insertionSort (fun a b => a ≤ b) l
    exact List.pairwise_map.mpr
      (hs.imp (fun hab => mul_le_mul_of_nonneg_left hab (le_of_lt hc)))

lemma getD_map_mul (c : ℚ) (s : List ℚ) (i : ℕ) (d : ℚ) :
    (s.map (fun x => c * x)).getD i (c * d) = c * s.getD i d := by
  induction s generalizing i with
  | nil => simp
  | cons a t ih =>
    cases i with
    | zero => simp
    | succ j => exact ih j

lemma getD_map_mul0 (c : ℚ) (s : List ℚ) (i : ℕ) :
    (s.map (fun x => c * x)).getD i 0 = c * s.getD i 0 := by
  have h := getD_map_mul c s i 0
  rw [mul_zero] at h
  exact h

lemma percentile_map_mul (c : ℚ) (hc : 0 < c) (l : List ℚ) (q : ℚ) :
    percentile (l.map (fun x => c * x)) q = c * percentile l q := by
  simp only [percentile]
  rw [sorted_map_mul c hc l, List.length_map]
  rw [getD_map_mul0 c (List.insertionSort (fun a b => a ≤ b) l)]
  rw [getD_map_mul c (List.insertionSort (fun a b => a ≤ b) l)]
  ring

/-- C10: var_weights is positively homogeneous in the weight vector: for a
valid confidence level and any c > 0, scaling every weight by c scales the
returned VaR by c. -/
theorem var_weights_positive_homogeneous (data : List (ℕ × List ℚ)) (w : List ℚ)
    (conf c : ℚ) (h : confOK conf) (hc : 0 < c) :
    ∃ v, var_weights data w conf = .ok v ∧
      var_weights data (w.map (fun x => c * x)) conf = .ok (c * v) := by
  refine ⟨|percentile (portRets data w) (100 - conf)|, ?_, ?_⟩
  · rw [var_weights, if_pos h]
  · rw [var_weights, if_pos h]
    have hfun : (fun row => dot (w.map (fun x => c * x)) row) =
        fun row => c * dot w row := funext (dot_map_mul c w)
    have hmap : portRets data (w.map (fun x => c * x)) =
        (portRets data w).map (fun x => c * x) := by
      simp only [portRets, dot]
      rw [show (dot (w.map (fun x => c * x))) = fun row => c * dot w row from hfun]
      rw [List.map_map]
      rfl
    rw [hmap, percentile_map_mul c hc, abs_mul, abs_of_pos hc]

/-- Witness for C10: returns -10% and +2%, weights halved then doubled. -/
theorem var_weights_positive_homogeneous_witness :
    ∃ v, var_weights mixedPrices [1/2] 95 = .ok v ∧
      var_weights mixedPrices (([1/2] : List ℚ).map (fun x => (2:ℚ) * x)) 95 =
        .ok (2 * v) :=
  var_weights_positive_homogeneous mixedPrices [1/2] 95 2 (by norm_num [confOK])
    (by norm_num)
